import Mathlib

/-!
Shallow embedding of the genai-polyinfer orchestration core
(src/orchestrator.ts, src/cache.ts, src/metrics.ts, src/config.ts).

Conventions of the embedding:
* JS `Date.now()` is an explicit `now : Nat` parameter (milliseconds).
* JS `Map`s / plain-object records keyed by strings are association lists
  with overwrite-on-set semantics (`mapSet` / `mapGet` / `mapDelete`).
* The network is an oracle: each attempt is classified by an `Outcome`
  (transport rejection, transport response with its `ok` flag, body and the
  result of the out-of-scope `extractText` collaborator), plus a latency.
* `Math.random()`-driven choices are parameters: the quirky-message index is
  a `Fin` over the message list, and the `subset` strategy's shuffle
  (`[...pool].sort(() => 0.5 - Math.random())`) is a `shuffle` function
  argument (any permutation of its input).
* Environment-variable credential resolution is ambient in the source; the
  resolved non-empty credential list (`availableApiKeys`, in configured
  source order) is an explicit input.
-/

/-- Generic string-keyed association map: lookup (JS `Map.get` / record access). -/
def mapGet {β : Type} : List (String × β) → String → Option β
  | [], _ => none
  | (k', v) :: rest, k => if k' = k then some v else mapGet rest k

/-- JS `Map.set` / record assignment: overwrite in place or append. -/
def mapSet {β : Type} : List (String × β) → String → β → List (String × β)
  | [], k, v => [(k, v)]
  | (k', v') :: rest, k, v =>
    if k' = k then (k, v) :: rest else (k', v') :: mapSet rest k v

/-- JS `Map.delete`. -/
def mapDelete {β : Type} : List (String × β) → String → List (String × β)
  | [], _ => []
  | (k', v') :: rest, k =>
    if k' = k then rest else (k', v') :: mapDelete rest k

/-- `mapGet` with a default (JS `x[k] || d` / `??=` read). -/
def mapGetD {β : Type} (m : List (String × β)) (k : String) (d : β) : β :=
  (mapGet m k).getD d

/-- The fixed placeholder messages (`QUIRKY_MESSAGES` in src/orchestrator.ts). -/
def QUIRKY_MESSAGES : List String :=
  ["Music is too loud.. come again?",
   "Say again ... s l o w l y",
   "I'm sorry, I didn't catch that.",
   "Could you repeat that?",
   "Pardon me?"]

/-- `Result` from src/orchestrator.ts. `raw_response` is the parsed provider
body (abstracted to a string) or `null` (`none`) on total failure. -/
structure Result where
  raw_response : Option String
  text : String
deriving Repr, DecidableEq

instance {ε α : Type} [DecidableEq ε] [DecidableEq α] : DecidableEq (Except ε α) :=
  fun a b =>
    match a, b with
    | .ok x, .ok y => decidable_of_iff (x = y) (by simp)
    | .error x, .error y => decidable_of_iff (x = y) (by simp)
    | .ok _, .error _ => isFalse (by simp)
    | .error _, .ok _ => isFalse (by simp)

/-- The placeholder Result built when every provider fails:
`QUIRKY_MESSAGES[Math.floor(Math.random() * QUIRKY_MESSAGES.length)]`;
the random draw is the index `qr`. -/
def quirkyResult (qr : Fin QUIRKY_MESSAGES.length) : Result :=
  { raw_response := none, text := QUIRKY_MESSAGES.get qr }

/-! ## Metrics (src/metrics.ts) -/

/-- Per-provider `Stats` from src/metrics.ts. -/
structure Stats where
  success : Nat
  failure : Nat
  latency : Nat
  count : Nat
deriving Repr, DecidableEq

def emptyStats : Stats := ⟨0, 0, 0, 0⟩

/-- The process-wide `METRICS` record. -/
def Metrics : Type := List (String × Stats)

/-- `recordSuccess(provider, latency)` from src/metrics.ts. -/
def recordSuccess (provider : String) (latency : Nat) (m : Metrics) : Metrics :=
  let s := mapGetD m provider emptyStats
  mapSet m provider
    { s with success := s.success + 1, latency := s.latency + latency, count := s.count + 1 }

/-- `recordFailure(provider, latency)` from src/metrics.ts. -/
def recordFailure (provider : String) (latency : Nat) (m : Metrics) : Metrics :=
  let s := mapGetD m provider emptyStats
  mapSet m provider
    { s with failure := s.failure + 1, latency := s.latency + latency, count := s.count + 1 }

/-! ## Cache (src/cache.ts) -/

/-- A cache entry `{ expires, value }`. -/
structure CacheEntry where
  expires : Nat
  value : Result
deriving Repr, DecidableEq

def Cache : Type := List (String × CacheEntry)

/-- `makeKey(input, provider, model?)`: the `model ? ... : ...` ternary tests
string truthiness, so an empty model string selects the two-part key. -/
def makeKey (input provider : String) (model : String) : String :=
  if model ≠ "" then provider ++ "::" ++ model ++ "::" ++ input
  else provider ++ "::" ++ input

/-- `getCache(key)`: absent entries give `undefined`; an entry with
`Date.now() > e.expires` is deleted and reported absent; otherwise the value
is returned. Returns the (possibly evicted-from) cache alongside. -/
def getCache (c : Cache) (key : String) (now : Nat) : Option Result × Cache :=
  match mapGet c key with
  | none => (none, c)
  | some e => if e.expires < now then (none, mapDelete c key) else (some e.value, c)

/-- `setCache(key, value, ttl)`: stores `{ value, expires: Date.now() + ttl }`. -/
def setCache (c : Cache) (key : String) (value : Result) (ttl : Nat) (now : Nat) : Cache :=
  mapSet c key { expires := now + ttl, value := value }

/-! ## Configuration (src/config.ts) -/

/-- A provider `intent` value: `z.union([z.string(), z.array(z.string())])`. -/
inductive IntentSpec where
  | one (s : String)
  | many (l : List String)
deriving Repr, DecidableEq

/-- JS truthiness of an optional intent value: `undefined` and the empty
string are falsy; an array (even empty) is truthy. -/
def intentFalsy : Option IntentSpec → Bool
  | none => true
  | some (.one s) => s = ""
  | some (.many _) => false

/-- The normalized list of intents carried by a truthy intent value; empty
for a falsy one (mirrors every `if (x) { const arr = Array.isArray(x) ? x : [x] }`
site in src/config.ts and src/orchestrator.ts). -/
def intentValues : Option IntentSpec → List String
  | none => []
  | some (.one s) => if s = "" then [] else [s]
  | some (.many l) => l

/-- `api_key_fallback_strategy`: `z.enum(['first','all','count','indices','range','subset'])`. -/
inductive Strategy where
  | first | all | count | indices | range | subset
deriving Repr, DecidableEq

/-- A validated `Provider` (src/config.ts `ProviderSchema`), numbers as `Int`. -/
structure Provider where
  name : String
  model : Option String := none
  api_url : String
  request_structure : String
  request_header : Option (List (String × String)) := none
  api_key_from_env : List String
  responsePath : Option String := none
  order : Option Int := none
  intent : Option IntentSpec := none
  api_key_fallback_strategy : Strategy
  api_key_fallback_count : Int
  api_key_fallback_indices : Option (List Int) := none
  api_key_fallback_range_start : Option Int := none
  api_key_fallback_range_end : Option Int := none
  api_key_fallback_subset_count : Option Int := none
  api_key_fallback_subset_from : Option Int := none
deriving Repr, DecidableEq

inductive Mode where
  | synchronous | concurrent
deriving Repr, DecidableEq

structure CacheCfg where
  enabled : Bool
  ttl : Nat
deriving Repr, DecidableEq

/-- A validated `Config` (src/config.ts `ConfigSchema`). -/
structure Config where
  providers : List Provider
  all_intents : Option (List String) := none
  mode : Mode
  consecutive_success : Nat
  logging : Bool
  metrics : Bool
  cache : CacheCfg
deriving Repr, DecidableEq

/-- Pre-validation provider input: fields with zod defaults are optional. -/
structure RawProvider where
  name : String
  model : Option String := none
  api_url : String
  request_structure : String
  request_header : Option (List (String × String)) := none
  api_key_from_env : List String
  responsePath : Option String := none
  order : Option Int := none
  intent : Option IntentSpec := none
  api_key_fallback_strategy : Option Strategy := none
  api_key_fallback_count : Option Int := none
  api_key_fallback_indices : Option (List Int) := none
  api_key_fallback_range_start : Option Int := none
  api_key_fallback_range_end : Option Int := none
  api_key_fallback_subset_count : Option Int := none
  api_key_fallback_subset_from : Option Int := none
deriving Repr, DecidableEq

/-- Pre-validation configuration input (`Partial<Config>`), typed. -/
structure RawConfig where
  providers : List RawProvider
  all_intents : Option (List String) := none
  mode : Option Mode := none
  consecutive_success : Option Nat := none
  logging : Option Bool := none
  metrics : Option Bool := none
  cache : Option CacheCfg := none
deriving Repr, DecidableEq

/-- `ProviderSchema.parse`: applies the zod defaults
(`strategy` → `'first'`, `count` → `2`). -/
def parseProvider (p : RawProvider) : Provider :=
  { name := p.name, model := p.model, api_url := p.api_url,
    request_structure := p.request_structure, request_header := p.request_header,
    api_key_from_env := p.api_key_from_env, responsePath := p.responsePath,
    order := p.order, intent := p.intent,
    api_key_fallback_strategy := p.api_key_fallback_strategy.getD Strategy.first,
    api_key_fallback_count := p.api_key_fallback_count.getD 2,
    api_key_fallback_indices := p.api_key_fallback_indices,
    api_key_fallback_range_start := p.api_key_fallback_range_start,
    api_key_fallback_range_end := p.api_key_fallback_range_end,
    api_key_fallback_subset_count := p.api_key_fallback_subset_count,
    api_key_fallback_subset_from := p.api_key_fallback_subset_from }

/-- `ConfigSchema.parse` on well-typed input: applies the zod defaults.
`providers` is `z.array(ProviderSchema)` with no minimum-length refinement,
so any list (including the empty one) passes. Shape violations (wrong field
types) are not representable in this typed embedding. -/
def parseConfig (cfg : RawConfig) : Config :=
  { providers := cfg.providers.map parseProvider,
    all_intents := cfg.all_intents,
    mode := cfg.mode.getD Mode.synchronous,
    consecutive_success := cfg.consecutive_success.getD 5,
    logging := cfg.logging.getD true,
    metrics := cfg.metrics.getD true,
    cache := cfg.cache.getD ⟨true, 600000⟩ }

/-- The first provider-intent whitelist violation found by `loadConfig`'s
validation loop, if any: `(provider name, offending intent)`. -/
def firstBadIntent (allowed : List String) : List Provider → Option (String × String)
  | [] => none
  | p :: rest =>
    match (intentValues p.intent).find? (fun i => !(allowed.contains i)) with
    | some i => some (p.name, i)
    | none => firstBadIntent allowed rest

/-- `loadConfig(cfg)` from src/config.ts: schema parse (with defaults), then
validate every provider intent against `all_intents` when that whitelist is
present; the first violation throws. -/
def loadConfig (cfg : RawConfig) : Except String Config :=
  let config := parseConfig cfg
  match config.all_intents with
  | none => .ok config
  | some allowed =>
    match firstBadIntent allowed config.providers with
    | some (n, i) =>
      .error ("Provider " ++ n ++ " has intent " ++ i ++ " not in all_intents")
    | none => .ok config

/-! ## Key-fallback policy (src/orchestrator.ts `tryProvider`, key selection) -/

/-- ECMAScript index clamp used by `Array.prototype.slice`: negative indices
count from the end, and indices are clamped to `[0, len]`. -/
def jsClamp (x : Int) (len : Nat) : Nat :=
  if x < 0 then (x + len).toNat else min x.toNat len

/-- JS `l.slice(start, fin)`. -/
def jsSlice {α : Type} (l : List α) (start fin : Int) : List α :=
  (l.take (jsClamp fin l.length)).drop (jsClamp start l.length)

/-- The `keysToTry` computation of `tryProvider` (the six-way `switch` on
`api_key_fallback_strategy`). Only reached when `availableApiKeys` is
non-empty, so the literal `[availableApiKeys[0]]` fallbacks are embedded as
`avail.take 1`. `shuffle` stands for
`[...subsetPool].sort(() => 0.5 - Math.random())` (some permutation of the
pool). The `indices` arm keeps the order of the configured index list and
its `.filter(key !== undefined)` is vacuous after the range filter. -/
def keysToTry (p : Provider) (avail : List String)
    (shuffle : List String → List String) : List String :=
  match p.api_key_fallback_strategy with
  | .first => jsSlice avail 0 1
  | .all => avail
  | .count => jsSlice avail 0 p.api_key_fallback_count
  | .indices =>
    match p.api_key_fallback_indices with
    | some idxs =>
      if idxs ≠ [] then
        (idxs.filter (fun i => 0 ≤ i ∧ i < (avail.length : Int))).map
          (fun i => avail.getD i.toNat "")
      else avail.take 1
    | none => avail.take 1
  | .range =>
    match p.api_key_fallback_range_start, p.api_key_fallback_range_end with
    | some rs, some re =>
      let start := max 0 rs
      let fin := min (avail.length : Int) (re + 1)
      jsSlice avail start fin
    | _, _ => avail.take 1
  | .subset =>
    match p.api_key_fallback_subset_count, p.api_key_fallback_subset_from with
    | some sc, some sf =>
      if sc ≠ 0 then
        let subsetSize := min sc (avail.length : Int)
        let fromIndex := min sf (avail.length : Int)
        let subsetPool := jsSlice avail 0 fromIndex
        jsSlice (shuffle subsetPool) 0 subsetSize
      else avail.take 1
    | _, _ => avail.take 1

/-! ## Network attempts (src/orchestrator.ts `tryRequest`) -/

/-- Classification of one network attempt: the transport either rejects
(`netError`) or yields `{ok, status, body}`; `extracted` is the value of the
out-of-scope `extractText(res.body, provider.responsePath)` collaborator
(`none` for `undefined`; the empty string is also falsy at the check site). -/
inductive Outcome where
  | netError : Outcome
  | response (ok : Bool) (status : Nat) (body : String) (extracted : Option String) : Outcome
deriving Repr, DecidableEq

/-- An attempt succeeds when the transport reports `ok` and extraction yields
a truthy (non-empty) string. -/
def outcomeSuccess : Outcome → Bool
  | .netError => false
  | .response ok _ _ extracted =>
    ok && (match extracted with | some t => t ≠ "" | none => false)

/-- `tryRequest(input, provider, apiKey)`: one transport round trip. The
whole call is wrapped in `try/catch`; the catch re-records a failure and
rethrows, so the `!res.ok` and no-text paths record a failure twice (once at
the check, once in the catch), while a transport rejection records once and a
success records one success. The two `Date.now() - start` reads are modeled
as the same `latency`. -/
def tryRequest (metricsOn : Bool) (pname : String) (o : Outcome) (latency : Nat)
    (m : Metrics) : Except String Result × Metrics :=
  let recF : Metrics → Metrics :=
    fun mm => if metricsOn then recordFailure pname latency mm else mm
  match o with
  | .netError => (.error "network error", recF m)
  | .response ok status body extracted =>
    if !ok then
      (.error ("HTTP " ++ toString status), recF (recF m))
    else
      match extracted with
      | some t =>
        if t = "" then (.error "No text extracted from response", recF (recF m))
        else (.ok { raw_response := some body, text := t },
              if metricsOn then recordSuccess pname latency m else m)
      | none => (.error "No text extracted from response", recF (recF m))

/-- The per-provider network environment: resolved credentials, the subset
shuffle, and the outcome/latency oracle indexed by attempt number within the
provider (the `i`-th entry of the key loop, or attempt 0 on the no-key path). -/
structure ProvEnv where
  avail : List String
  shuffle : List String → List String
  oracle : Nat → Outcome × Nat

/-- The key loop of `tryProvider`: attempt each trial key in order, return on
first success; when the loop exhausts, record one aggregate failure with
latency 0 (when metrics are on) and throw. -/
def tryKeysLoop (metricsOn : Bool) (pname : String) (totalAvail : Nat)
    (oracle : Nat → Outcome × Nat) :
    List String → Nat → Metrics → Except String Result × Metrics
  | [], _, m =>
    (.error ("0 of " ++ toString totalAvail ++ " API keys failed"),
     if metricsOn then recordFailure pname 0 m else m)
  | _ :: rest, i, m =>
    match tryRequest metricsOn pname (oracle i).1 (oracle i).2 m with
    | (.ok r, m') => (.ok r, m')
    | (.error _, m') => tryKeysLoop metricsOn pname totalAvail oracle rest (i + 1) m'

/-- `tryProvider(input, provider)`: resolve credentials (given here as
`env.avail`); with at least one credential, drive the key-fallback loop over
`keysToTry`; with none, attempt once without a key (local-model path), and on
failure record one failure with latency 0 and throw. The aggregate
error message after an exhausted key loop is simplified to its fixed parts. -/
def tryProvider (metricsOn : Bool) (p : Provider) (env : ProvEnv)
    (m : Metrics) : Except String Result × Metrics :=
  if env.avail.isEmpty then
    match tryRequest metricsOn p.name (env.oracle 0).1 (env.oracle 0).2 m with
    | (.ok r, m') => (.ok r, m')
    | (.error _, m') =>
      (.error ("No API key for " ++ p.name),
       if metricsOn then recordFailure p.name 0 m' else m')
  else
    let keys := keysToTry p env.avail env.shuffle
    tryKeysLoop metricsOn p.name env.avail.length env.oracle keys 0 m

/-! ## Provider selection (src/orchestrator.ts `getFilteredProviders`) -/

/-- One element of `providersWithScores`, with the provider's original
position (`providers.indexOf`, well-defined through `enum` since the sort is
stable and the comparator falls back to index difference). -/
structure Scored where
  provider : Provider
  idx : Nat
  matchCount : Nat
deriving Repr, DecidableEq

/-- `matchCount`: the number of requested intents contained in the provider's
(truthiness-normalized) intent list. -/
def matchCountOf (p : Provider) (intentArray : List String) : Nat :=
  intentArray.countP (fun i => (intentValues p.intent).contains i)

/-- The comparator `(a, b) => b.matchCount - a.matchCount || indexDiff` as a
total boolean order: higher score first, ties by original position. -/
def scoreLe (a b : Scored) : Bool :=
  decide (b.matchCount < a.matchCount) ||
    (decide (a.matchCount = b.matchCount) && decide (a.idx ≤ b.idx))

/-- The scored provider list, in configured order. -/
def scoredOf (providers : List Provider) (intentArray : List String) : List Scored :=
  providers.enum.map (fun ip => ⟨ip.2, ip.1, matchCountOf ip.2 intentArray⟩)

/-- `getFilteredProviders()`: with a falsy requested intent return the list
unchanged; otherwise score, sort (descending score, ties by original index),
drop zero scores, and fall back to the full list when nothing remains. -/
def getFilteredProviders (providers : List Provider)
    (intent : Option IntentSpec) : List Provider :=
  if intentFalsy intent then providers
  else
    let intentArray := intentValues intent
    let sorted := (scoredOf providers intentArray).mergeSort scoreLe
    let filtered := (sorted.filter (fun s => 0 < s.matchCount)).map (fun s => s.provider)
    if filtered.isEmpty then providers else filtered

/-! ## Orchestration (src/orchestrator.ts `runSequential`, `runConcurrent`, `say`) -/

/-- The per-instance `consecutiveCounts` record. -/
def Counts : Type := List (String × Nat)

/-- The consecutive-success bookkeeping performed after a sequential success:
increment the provider's counter, and reset it to zero once it reaches
`consecutive_success` (the reset does not change attempt order). -/
def bumpConsecutive (consTh : Nat) (pname : String) (k : Counts) : Counts :=
  let k1 := mapSet k pname (mapGetD k pname 0 + 1)
  if consTh ≤ mapGetD k1 pname 0 then mapSet k1 pname 0 else k1

/-- The provider loop of `runSequential`, over the already-selected provider
list: try each provider in order (the `i`-th selected provider uses `env i`);
on the first success write the cache (when enabled) and return; on failure
continue; if the list is exhausted, return the placeholder Result. -/
def runSeqLoop (metricsOn : Bool) (cacheCfg : CacheCfg) (consTh : Nat)
    (input : String) (now : Nat) (qr : Fin QUIRKY_MESSAGES.length)
    (env : Nat → ProvEnv) :
    List Provider → Nat → Metrics → Cache → Counts →
      Result × Metrics × Cache × Counts
  | [], _, m, c, k => (quirkyResult qr, m, c, k)
  | p :: rest, i, m, c, k =>
    match tryProvider metricsOn p (env i) m with
    | (.ok r, m') =>
      let c' := if cacheCfg.enabled then
          setCache c (makeKey input "global" "") r cacheCfg.ttl now
        else c
      (r, m', c', bumpConsecutive consTh p.name k)
    | (.error _, m') => runSeqLoop metricsOn cacheCfg consTh input now qr env rest (i + 1) m' c k

/-- `runSequential(input)`. -/
def runSequential (cfg : Config) (intent : Option IntentSpec) (input : String)
    (env : Nat → ProvEnv) (now : Nat) (qr : Fin QUIRKY_MESSAGES.length)
    (m : Metrics) (c : Cache) (k : Counts) : Result × Metrics × Cache × Counts :=
  runSeqLoop cfg.metrics cfg.cache cfg.consecutive_success input now qr env
    (getFilteredProviders cfg.providers intent) 0 m c k

/-- One step of the `Promise.any` race fold: a rejected task leaves the
current winner, a fulfilled task wins when it is strictly earlier (ties go to
the earlier-launched task, which the left fold sees first). -/
def panyStep (best : Option (Nat × Result)) (tsk : Nat × Except String Result) :
    Option (Nat × Result) :=
  match tsk with
  | (t, .ok r) =>
    match best with
    | none => some (t, r)
    | some (tb, rb) => if t < tb then some (t, r) else some (tb, rb)
  | (_, .error _) => best

/-- `Promise.any` over tasks tagged with completion times: resolves with the
value of the earliest fulfilled task (ties broken by launch order); `none`
when every task rejects. -/
def promiseAny (tasks : List (Nat × Except String Result)) : Option (Nat × Result) :=
  tasks.foldl panyStep none

/-- The task list of `runConcurrent`: one `tryProvider` task per selected
provider, each with its completion time `times i`. Each task's outcome is
computed against the entry metrics state; the racing tasks' metric
interleaving is unordered (spec §5) and a task's success/failure never
depends on the metrics state, so results are well-defined. -/
def concurrentTasks (metricsOn : Bool) (provs : List Provider)
    (env : Nat → ProvEnv) (times : Nat → Nat) (m : Metrics) :
    List (Nat × Except String Result) :=
  provs.enum.map (fun ip => (times ip.1, (tryProvider metricsOn ip.2 (env ip.1) m).1))

/-- `runConcurrent(input)`: launch every selected provider's task, await
`Promise.any`; on a fulfilled race write the cache (when enabled) and return
the winner; when all reject, return the placeholder Result. The final
metrics state (updated by all tasks in unspecified order) is not modeled. -/
def runConcurrent (cfg : Config) (intent : Option IntentSpec) (input : String)
    (env : Nat → ProvEnv) (times : Nat → Nat) (now : Nat)
    (qr : Fin QUIRKY_MESSAGES.length) (m : Metrics) (c : Cache) : Result × Cache :=
  let provs := getFilteredProviders cfg.providers intent
  match promiseAny (concurrentTasks cfg.metrics provs env times m) with
  | some tr =>
    (tr.2,
     if cfg.cache.enabled then
       setCache c (makeKey input "global" "") tr.2 cfg.cache.ttl now
     else c)
  | none => (quirkyResult qr, c)

/-- The `say` method of an `Orchestrator` (post-constructor, so `cfg` is the
loaded config and `intent` the validated requested intent): cache fast path
(`if (cached)` hits exactly when the lookup yields a value), then dispatch on
the mode. In the concurrent branch the sequential-only state (metrics
interleaving, consecutive counters) passes through unmodeled/unchanged. -/
def osay (cfg : Config) (intent : Option IntentSpec) (input : String)
    (env : Nat → ProvEnv) (times : Nat → Nat) (now : Nat)
    (qr : Fin QUIRKY_MESSAGES.length) (m : Metrics) (c : Cache) (k : Counts) :
    Result × Metrics × Cache × Counts :=
  let run : Cache → Result × Metrics × Cache × Counts := fun c1 =>
    match cfg.mode with
    | .concurrent =>
      let rc := runConcurrent cfg intent input env times now qr m c1
      (rc.1, m, rc.2, k)
    | .synchronous => runSequential cfg intent input env now qr m c1 k
  if cfg.cache.enabled then
    match getCache c (makeKey input "global" "") now with
    | (some v, c1) => (v, m, c1, k)
    | (none, c1) => run c1
  else run c

/-! ## Derived observers and concrete fixtures used by the verification -/

/-- The failure counter of one provider. -/
def failCount (m : Metrics) (p : String) : Nat := (mapGetD m p emptyStats).failure

/-- The success counter of one provider. -/
def succCount (m : Metrics) (p : String) : Nat := (mapGetD m p emptyStats).success

/-- How many times one network attempt with outcome `o` increments the
provider's failure counter (the amended metrics-counting statement): a
transport rejection once, a non-success status or unextractable body twice
(once at the check site, once more in the enclosing catch), a success never. -/
def failureIncrements (o : Outcome) : Nat :=
  match o with
  | .netError => 1
  | .response _ _ _ _ => if outcomeSuccess o then 0 else 2

/-- How many times one network attempt increments the success counter. -/
def successIncrements (o : Outcome) : Nat :=
  if outcomeSuccess o then 1 else 0

/-- The provider-attempt outcome, which does not depend on the entry metrics
state (proved below in `tryProvider_fst_eq_attemptR`). -/
def attemptR (metricsOn : Bool) (p : Provider) (env : ProvEnv) : Except String Result :=
  (tryProvider metricsOn p env []).1

/-- Strict "comes before" order of the intent sort: higher match count first,
ties by original configured position. -/
def scoredBefore (a b : Scored) : Prop :=
  b.matchCount < a.matchCount ∨ (a.matchCount = b.matchCount ∧ a.idx < b.idx)

/-- The positively-scored providers, in configured order. -/
def posScored (providers : List Provider) (intentArray : List String) : List Scored :=
  (scoredOf providers intentArray).filter (fun s => 0 < s.matchCount)

/-- A minimal provider fixture. -/
def baseProvider (nm : String) : Provider :=
  { name := nm, api_url := "https://api.example.com", request_structure := "body",
    api_key_from_env := ["KEY"],
    api_key_fallback_strategy := .first, api_key_fallback_count := 2 }

/-- A provider using the `indices` key-fallback strategy. -/
def indicesProvider (idxs : List Int) : Provider :=
  { (baseProvider "ip") with
    api_key_fallback_strategy := Strategy.indices
    api_key_fallback_indices := some idxs }

/-- A sample successful Result. -/
def sampleResult : Result := { raw_response := some "body", text := "ok" }

/-- The empty-provider-list configuration input. -/
def rawEmptyProviders : RawConfig := { providers := [] }

/-- A one-provider synchronous configuration fixture. -/
def cfgW : Config :=
  { providers := [baseProvider "A"], mode := .synchronous, consecutive_success := 5,
    logging := false, metrics := true, cache := ⟨true, 1000⟩ }

/-- An environment whose every attempt is a transport rejection. -/
def envFailW : Nat → ProvEnv := fun _ => ⟨[], id, fun _ => (.netError, 0)⟩

/-- A transport success outcome fixture. -/
def succOutcome : Outcome := .response true 200 "body" (some "ok")

/-- An environment whose every attempt succeeds. -/
def envSuccW : Nat → ProvEnv := fun _ => ⟨[], id, fun _ => (succOutcome, 2)⟩

/-- Two providers: index 0 fails fast, index 1 succeeds slowly. -/
def envMixedW : Nat → ProvEnv := fun i =>
  if i = 0 then ⟨[], id, fun _ => (.netError, 0)⟩ else ⟨[], id, fun _ => (succOutcome, 2)⟩

/-- Completion times: the failing task finishes at 1, the succeeding at 5. -/
def timesW : Nat → Nat := fun i => if i = 0 then 1 else 5

/-- A two-provider concurrent configuration fixture. -/
def cfg2W : Config :=
  { providers := [baseProvider "A", baseProvider "B"], mode := .concurrent,
    consecutive_success := 5, logging := false, metrics := true, cache := ⟨true, 1000⟩ }

/-! ## Map and metrics lemmas -/

theorem mapGet_mapSet_self {β : Type} (m : List (String × β)) (k : String) (v : β) :
    mapGet (mapSet m k v) k = some v := by
  induction m with
  | nil => simp [mapSet, mapGet]
  | cons hd tl ih =>
    obtain ⟨k', v'⟩ := hd
    by_cases h : k' = k <;> simp [mapSet, mapGet, h, ih]

theorem failCount_recordFailure (p : String) (l : Nat) (m : Metrics) :
    failCount (recordFailure p l m) p = failCount m p + 1 := by
  simp [failCount, recordFailure, mapGetD, mapGet_mapSet_self]

theorem succCount_recordFailure (p : String) (l : Nat) (m : Metrics) :
    succCount (recordFailure p l m) p = succCount m p := by
  simp [succCount, failCount, recordFailure, mapGetD, mapGet_mapSet_self]

theorem failCount_recordSuccess (p : String) (l : Nat) (m : Metrics) :
    failCount (recordSuccess p l m) p = failCount m p := by
  simp [failCount, recordSuccess, mapGetD, mapGet_mapSet_self]

theorem succCount_recordSuccess (p : String) (l : Nat) (m : Metrics) :
    succCount (recordSuccess p l m) p = succCount m p + 1 := by
  simp [succCount, recordSuccess, mapGetD, mapGet_mapSet_self]

/-! ## C5 -/

/-- Claim C5 counterexample: with metrics enabled, a single attempt that
returns a non-success transport status increments the provider's failure
counter twice, not exactly once (the check site records a failure and the
enclosing catch records another). -/
theorem tryRequest_single_failure_count_refuted :
    failCount (tryRequest true "p" (Outcome.response false 500 "b" none) 7 []).2 "p" = 2 ∧
      ¬ failCount (tryRequest true "p" (Outcome.response false 500 "b" none) 7 []).2 "p" =
          failCount ([] : Metrics) "p" + 1 := by
  constructor <;> decide

/-- Claim C5 (amended): per network attempt, the failure counter grows by
`failureIncrements` (twice for a non-success status or unextractable body,
once for a transport rejection, zero on success) and the success counter by
`successIncrements` (once on a transport success with extractable text). -/
theorem tryRequest_metrics_increments (pname : String) (o : Outcome) (latency : Nat)
    (m : Metrics) :
    failCount (tryRequest true pname o latency m).2 pname
        = failCount m pname + failureIncrements o ∧
      succCount (tryRequest true pname o latency m).2 pname
        = succCount m pname + successIncrements o := by
  match o with
  | .netError =>
    simp [tryRequest, failureIncrements, successIncrements, outcomeSuccess,
      failCount_recordFailure, succCount_recordFailure]
  | .response ok status body extracted =>
    match ok, extracted with
    | false, _ =>
      simp [tryRequest, failureIncrements, successIncrements, outcomeSuccess,
        failCount_recordFailure, succCount_recordFailure]
    | true, none =>
      simp [tryRequest, failureIncrements, successIncrements, outcomeSuccess,
        failCount_recordFailure, succCount_recordFailure]
    | true, some t =>
      by_cases h : t = "" <;>
        simp [tryRequest, failureIncrements, successIncrements, outcomeSuccess, h,
          failCount_recordFailure, succCount_recordFailure,
          failCount_recordSuccess, succCount_recordSuccess]

/-! ## C8 -/

/-- Claim C8 counterexample: an entry stored at time 0 with `ttl = 5` is
still returned by `getCache` at time 5 — exactly `T` milliseconds after the
store — because eviction requires `now > expires`, refuting "absent at and
after exactly T milliseconds". -/
theorem cache_hit_at_exact_ttl :
    (getCache (setCache [] "k" sampleResult 5 0) "k" 5).1 = some sampleResult := by
  decide

/-- Claim C8 (amended): an entry stored with `ttl = T` at time `t0` is
retrievable at every time up to and including `t0 + T`, and strictly after
`t0 + T` it is treated as missing and is evicted from the store. -/
theorem cache_ttl_boundary (c : Cache) (key : String) (v : Result) (ttl t0 t : Nat) :
    (t ≤ t0 + ttl →
      (getCache (setCache c key v ttl t0) key t).1 = some v) ∧
    (t0 + ttl < t →
      (getCache (setCache c key v ttl t0) key t).1 = none ∧
        (getCache (setCache c key v ttl t0) key t).2
          = mapDelete (setCache c key v ttl t0) key) := by
  constructor
  · intro h
    have hh : ¬ (t0 + ttl < t) := by omega
    simp [getCache, setCache, mapGet_mapSet_self, hh]
  · intro h
    simp [getCache, setCache, mapGet_mapSet_self, h]

/-- Witness for `cache_ttl_boundary` at `ttl = 5`, `t0 = 0`, times 3 and 9. -/
theorem cache_ttl_boundary_witness :
    (getCache (setCache [] "k" sampleResult 5 0) "k" 3).1 = some sampleResult ∧
      (getCache (setCache [] "k" sampleResult 5 0) "k" 9).1 = none := by
  exact ⟨(cache_ttl_boundary [] "k" sampleResult 5 0 3).1 (by decide),
    ((cache_ttl_boundary [] "k" sampleResult 5 0 9).2 (by decide)).1⟩

/-! ## C4 -/

/-- Claim C4: with available credentials `["k0","k1","k2"]` and configured
indices `[5, 7]` (all out of range), the computed key-trial list is empty and
the provider attempt fails without attempting any credential — even under an
oracle that would make any attempted request succeed — instead of falling
back to the first credential as the claim (and the adjacent source comment)
state. -/
theorem indices_all_out_of_range_attempts_nothing :
    keysToTry (indicesProvider [5, 7]) ["k0", "k1", "k2"] id = [] ∧
      (tryProvider true (indicesProvider [5, 7])
          ⟨["k0", "k1", "k2"], id, fun _ => (Outcome.response true 200 "b" (some "t"), 1)⟩
          []).1 = Except.error "0 of 3 API keys failed" :=
  ⟨by decide, rfl⟩

/-! ## C6 -/

/-- Claim C6 counterexample: `loadConfig` accepts the empty-provider-list
configuration (no thrown error), and a `say` call on the loaded configuration
silently produces the placeholder Result. -/
theorem empty_providers_not_rejected :
    loadConfig rawEmptyProviders = Except.ok (parseConfig rawEmptyProviders) ∧
      (osay (parseConfig rawEmptyProviders) none "hi" envFailW (fun _ => 0) 0
          ⟨0, by decide⟩ [] [] []).1 = quirkyResult ⟨0, by decide⟩ :=
  ⟨rfl, by decide⟩

theorem getFilteredProviders_nil (intent : Option IntentSpec) :
    getFilteredProviders [] intent = [] := by
  cases intent with
  | none => simp [getFilteredProviders, intentFalsy]
  | some isp => cases isp <;> simp [getFilteredProviders, intentFalsy, scoredOf]

/-- Claim C6 (amended): a configuration with an empty provider list is
accepted by `loadConfig` — the schema does not require non-emptiness and the
intent-whitelist loop has nothing to check — and a `say` call on it (with no
prior cache entry for the prompt) returns the placeholder Result rather than
throwing. -/
theorem loadConfig_accepts_empty_providers (raw : RawConfig)
    (h : raw.providers = []) :
    loadConfig raw = Except.ok (parseConfig raw) ∧
      ∀ (intent : Option IntentSpec) (input : String) (env : Nat → ProvEnv)
        (times : Nat → Nat) (now : Nat) (qr : Fin QUIRKY_MESSAGES.length)
        (m : Metrics) (k : Counts),
        (osay (parseConfig raw) intent input env times now qr m [] k).1 = quirkyResult qr := by
  constructor
  · cases hai : raw.all_intents <;>
      simp [loadConfig, parseConfig, h, hai, firstBadIntent]
  · intro intent input env times now qr m k
    have h0 : getFilteredProviders (parseConfig raw).providers intent = [] := by
      simp only [parseConfig, h, List.map_nil]
      exact getFilteredProviders_nil intent
    cases hen : (parseConfig raw).cache.enabled <;>
      cases hmode : (parseConfig raw).mode <;>
        simp [osay, hen, hmode, getCache, mapGet, runSequential, runConcurrent,
          concurrentTasks, promiseAny, h0, runSeqLoop]

/-- Witness for `loadConfig_accepts_empty_providers` at the concrete empty
configuration. -/
theorem loadConfig_accepts_empty_providers_witness :
    loadConfig rawEmptyProviders = Except.ok (parseConfig rawEmptyProviders) ∧
      (osay (parseConfig rawEmptyProviders) none "hello" envFailW (fun _ => 0) 3
          ⟨1, by decide⟩ [] [] []).1 = quirkyResult ⟨1, by decide⟩ :=
  ⟨(loadConfig_accepts_empty_providers rawEmptyProviders rfl).1,
   (loadConfig_accepts_empty_providers rawEmptyProviders rfl).2 none "hello" envFailW
     (fun _ => 0) 3 ⟨1, by decide⟩ [] []⟩

/-! ## C7 -/

theorem jsSlice_sublist {α : Type} (l : List α) (a b : Int) :
    List.Sublist (jsSlice l a b) l :=
  (List.drop_sublist _ _).trans (List.take_sublist _ _)

/-- Claim C7 counterexample: with the `indices` strategy configured as
`[1, 0]` over available credentials `["a", "b"]`, the key-trial list is
`["b", "a"]`, which is not a subsequence of the available list — the trial
list does not always preserve relative input order. -/
theorem keysToTry_not_subsequence :
    keysToTry (indicesProvider [1, 0]) ["a", "b"] id = ["b", "a"] ∧
      ¬ List.Sublist (keysToTry (indicesProvider [1, 0]) ["a", "b"] id) ["a", "b"] := by
  constructor <;> decide

/-- Claim C7 (amended): every key in the computed trial list is one of the
available credentials, and for the `first`, `all`, `count` and `range`
strategies the trial list is moreover a subsequence of the available list
(preserving relative order); `indices` follows the configured index order and
`subset` the random shuffle order, which need not preserve input order. -/
theorem keysToTry_membership_and_order (p : Provider) (avail : List String)
    (shuffle : List String → List String) (hs : ∀ l, (shuffle l).Perm l) :
    (∀ x ∈ keysToTry p avail shuffle, x ∈ avail) ∧
      ((p.api_key_fallback_strategy = Strategy.first ∨
        p.api_key_fallback_strategy = Strategy.all ∨
        p.api_key_fallback_strategy = Strategy.count ∨
        p.api_key_fallback_strategy = Strategy.range) →
        List.Sublist (keysToTry p avail shuffle) avail) := by
  constructor
  · intro x hx
    cases hstrat : p.api_key_fallback_strategy with
    | first =>
      simp only [keysToTry, hstrat] at hx
      exact (jsSlice_sublist avail 0 1).mem hx
    | all =>
      simp only [keysToTry, hstrat] at hx
      exact hx
    | count =>
      simp only [keysToTry, hstrat] at hx
      exact (jsSlice_sublist avail 0 p.api_key_fallback_count).mem hx
    | indices =>
      cases hi : p.api_key_fallback_indices with
      | none =>
        simp only [keysToTry, hstrat, hi] at hx
        exact (List.take_sublist 1 avail).mem hx
      | some idxs =>
        by_cases hne : idxs = []
        · simp only [keysToTry, hstrat, hi, hne] at hx
          exact (List.take_sublist 1 avail).mem hx
        · simp only [keysToTry, hstrat, hi, hne, ne_eq, not_false_eq_true, if_true] at hx
          obtain ⟨i, hifil, hieq⟩ := List.mem_map.mp hx
          obtain ⟨_, hpred⟩ := List.mem_filter.mp hifil
          have hrange : 0 ≤ i ∧ i < (avail.length : Int) := of_decide_eq_true hpred
          have hlt : i.toNat < avail.length := by omega
          rw [← hieq, List.getD_eq_getElem avail "" hlt]
          exact List.getElem_mem hlt
    | range =>
      cases hrs : p.api_key_fallback_range_start with
      | none =>
        simp only [keysToTry, hstrat, hrs] at hx
        exact (List.take_sublist 1 avail).mem hx
      | some rs =>
        cases hre : p.api_key_fallback_range_end with
        | none =>
          simp only [keysToTry, hstrat, hrs, hre] at hx
          exact (List.take_sublist 1 avail).mem hx
        | some re =>
          simp only [keysToTry, hstrat, hrs, hre] at hx
          exact (jsSlice_sublist avail _ _).mem hx
    | subset =>
      cases hsc : p.api_key_fallback_subset_count with
      | none =>
        simp only [keysToTry, hstrat, hsc] at hx
        exact (List.take_sublist 1 avail).mem hx
      | some sc =>
        cases hsf : p.api_key_fallback_subset_from with
        | none =>
          simp only [keysToTry, hstrat, hsc, hsf] at hx
          exact (List.take_sublist 1 avail).mem hx
        | some sf =>
          by_cases hz : sc = 0
          · simp only [keysToTry, hstrat, hsc, hsf, hz, ne_eq, not_true_eq_false,
              if_false] at hx
            exact (List.take_sublist 1 avail).mem hx
          · simp only [keysToTry, hstrat, hsc, hsf, hz, ne_eq, not_false_eq_true,
              if_true] at hx
            have h1 : x ∈ shuffle (jsSlice avail 0 (min sf (avail.length : Int))) :=
              (jsSlice_sublist _ 0 (min sc (avail.length : Int))).mem hx
            have h2 : x ∈ jsSlice avail 0 (min sf (avail.length : Int)) :=
              ((hs _).mem_iff).mp h1
            exact (jsSlice_sublist avail 0 (min sf (avail.length : Int))).mem h2
  · intro hstrat
    rcases hstrat with h | h | h | h
    · simp only [keysToTry, h]
      exact jsSlice_sublist avail 0 1
    · simp only [keysToTry, h]
      exact List.Sublist.refl avail
    · simp only [keysToTry, h]
      exact jsSlice_sublist avail 0 p.api_key_fallback_count
    · simp only [keysToTry, h]
      cases p.api_key_fallback_range_start with
      | none => exact List.take_sublist 1 avail
      | some rs =>
        cases p.api_key_fallback_range_end with
        | none => exact List.take_sublist 1 avail
        | some re => exact jsSlice_sublist avail _ _

/-- Witness for `keysToTry_membership_and_order` at the `first` strategy over
two credentials with the identity shuffle. -/
theorem keysToTry_membership_and_order_witness :
    (∀ x ∈ keysToTry (baseProvider "w") ["x", "y"] id, x ∈ ["x", "y"]) ∧
      ((baseProvider "w").api_key_fallback_strategy = Strategy.first ∨
        (baseProvider "w").api_key_fallback_strategy = Strategy.all ∨
        (baseProvider "w").api_key_fallback_strategy = Strategy.count ∨
        (baseProvider "w").api_key_fallback_strategy = Strategy.range →
        List.Sublist (keysToTry (baseProvider "w") ["x", "y"] id) ["x", "y"]) :=
  keysToTry_membership_and_order (baseProvider "w") ["x", "y"] id
    (fun l => List.Perm.refl l)

/-! ## Attempt-outcome lemmas -/

theorem tryRequest_fst_irrel (b : Bool) (p : String) (o : Outcome) (l : Nat)
    (m m' : Metrics) : (tryRequest b p o l m).1 = (tryRequest b p o l m').1 := by
  cases o with
  | netError => simp [tryRequest]
  | response ok status body extracted =>
    cases ok <;> cases extracted <;> simp [tryRequest]
    split <;> simp

theorem tryKeysLoop_fst_irrel (b : Bool) (p : String) (tot : Nat)
    (oracle : Nat → Outcome × Nat) (keys : List String) :
    ∀ (i : Nat) (m m' : Metrics),
      (tryKeysLoop b p tot oracle keys i m).1 = (tryKeysLoop b p tot oracle keys i m').1 := by
  induction keys with
  | nil => intro i m m'; simp [tryKeysLoop]
  | cons hd tl ih =>
    intro i m m'
    simp only [tryKeysLoop]
    have h1 := tryRequest_fst_irrel b p (oracle i).1 (oracle i).2 m m'
    rcases hm : tryRequest b p (oracle i).1 (oracle i).2 m with ⟨res, mm⟩
    rcases hm' : tryRequest b p (oracle i).1 (oracle i).2 m' with ⟨res', mm'⟩
    rw [hm, hm'] at h1
    simp only at h1
    subst h1
    cases res with
    | ok r => simp
    | error e => simpa using ih (i + 1) mm mm'

theorem tryProvider_fst_eq_attemptR (b : Bool) (p : Provider) (env : ProvEnv)
    (m : Metrics) : (tryProvider b p env m).1 = attemptR b p env := by
  unfold attemptR tryProvider
  by_cases he : env.avail.isEmpty
  · simp only [he, if_true]
    have h1 := tryRequest_fst_irrel b p.name (env.oracle 0).1 (env.oracle 0).2 m []
    rcases hm : tryRequest b p.name (env.oracle 0).1 (env.oracle 0).2 m with ⟨res, mm⟩
    rcases hm' : tryRequest b p.name (env.oracle 0).1 (env.oracle 0).2 [] with ⟨res', mm'⟩
    rw [hm, hm'] at h1
    simp only at h1
    subst h1
    cases res <;> simp
  · simp only [he, if_false]
    exact tryKeysLoop_fst_irrel b p.name env.avail.length env.oracle _ 0 m []

theorem tryRequest_error_of_fail (b : Bool) (p : String) (o : Outcome) (l : Nat)
    (m : Metrics) (h : outcomeSuccess o = false) :
    ∃ e, (tryRequest b p o l m).1 = Except.error e := by
  cases o with
  | netError => exact ⟨"network error", rfl⟩
  | response ok status body extracted =>
    cases ok with
    | false => exact ⟨"HTTP " ++ toString status, rfl⟩
    | true =>
      cases extracted with
      | none => exact ⟨"No text extracted from response", rfl⟩
      | some t =>
        have ht : t = "" := by
          simp [outcomeSuccess] at h
          exact h
        refine ⟨"No text extracted from response", ?_⟩
        simp [tryRequest, ht]

theorem tryRequest_ok_raw (b : Bool) (p : String) (o : Outcome) (l : Nat)
    (m : Metrics) (r : Result) (h : (tryRequest b p o l m).1 = Except.ok r) :
    ∃ body, r.raw_response = some body := by
  cases o with
  | netError => simp [tryRequest] at h
  | response ok status body extracted =>
    cases ok with
    | false => simp [tryRequest] at h
    | true =>
      cases extracted with
      | none => simp [tryRequest] at h
      | some t =>
        by_cases ht : t = ""
        · simp [tryRequest, ht] at h
        · simp [tryRequest, ht] at h
          exact ⟨body, by rw [← h]⟩

theorem tryKeysLoop_error_of_allfail (b : Bool) (p : String) (tot : Nat)
    (oracle : Nat → Outcome × Nat) (keys : List String)
    (hfail : ∀ j, outcomeSuccess (oracle j).1 = false) :
    ∀ (i : Nat) (m : Metrics), ∃ e, (tryKeysLoop b p tot oracle keys i m).1 = Except.error e := by
  induction keys with
  | nil => intro i m; exact ⟨_, rfl⟩
  | cons hd tl ih =>
    intro i m
    simp only [tryKeysLoop]
    obtain ⟨e, he⟩ := tryRequest_error_of_fail b p (oracle i).1 (oracle i).2 m (hfail i)
    rcases hm : tryRequest b p (oracle i).1 (oracle i).2 m with ⟨res, mm⟩
    rw [hm] at he
    simp only at he
    subst he
    simpa using ih (i + 1) mm

theorem tryProvider_error_of_allfail (b : Bool) (p : Provider) (env : ProvEnv)
    (m : Metrics) (hfail : ∀ j, outcomeSuccess (env.oracle j).1 = false) :
    ∃ e, (tryProvider b p env m).1 = Except.error e := by
  unfold tryProvider
  by_cases he : env.avail.isEmpty
  · simp only [he, if_true]
    obtain ⟨e, hee⟩ := tryRequest_error_of_fail b p.name (env.oracle 0).1 (env.oracle 0).2 m (hfail 0)
    rcases hm : tryRequest b p.name (env.oracle 0).1 (env.oracle 0).2 m with ⟨res, mm⟩
    rw [hm] at hee
    simp only at hee
    subst hee
    exact ⟨_, rfl⟩
  · simp only [he, if_false]
    exact tryKeysLoop_error_of_allfail b p.name env.avail.length env.oracle _ hfail 0 m

theorem tryKeysLoop_ok_raw (b : Bool) (p : String) (tot : Nat)
    (oracle : Nat → Outcome × Nat) (keys : List String) :
    ∀ (i : Nat) (m : Metrics) (r : Result),
      (tryKeysLoop b p tot oracle keys i m).1 = Except.ok r →
        ∃ body, r.raw_response = some body := by
  induction keys with
  | nil => intro i m r h; simp [tryKeysLoop] at h
  | cons hd tl ih =>
    intro i m r h
    simp only [tryKeysLoop] at h
    rcases hm : tryRequest b p (oracle i).1 (oracle i).2 m with ⟨res, mm⟩
    rw [hm] at h
    cases res with
    | ok r' =>
      simp only at h
      have : r' = r := by simpa using h
      subst this
      exact tryRequest_ok_raw b p (oracle i).1 (oracle i).2 m r' (by rw [hm])
    | error e =>
      simp only at h
      exact ih (i + 1) mm r h

theorem tryProvider_ok_raw (b : Bool) (p : Provider) (env : ProvEnv)
    (m : Metrics) (r : Result) (h : (tryProvider b p env m).1 = Except.ok r) :
    ∃ body, r.raw_response = some body := by
  unfold tryProvider at h
  by_cases he : env.avail.isEmpty
  · simp only [he, if_true] at h
    rcases hm : tryRequest b p.name (env.oracle 0).1 (env.oracle 0).2 m with ⟨res, mm⟩
    rw [hm] at h
    cases res with
    | ok r' =>
      simp only at h
      have : r' = r := by simpa using h
      subst this
      exact tryRequest_ok_raw b p.name (env.oracle 0).1 (env.oracle 0).2 m r' (by rw [hm])
    | error e => simp at h
  · simp only [he, if_false] at h
    exact tryKeysLoop_ok_raw b p.name env.avail.length env.oracle _ 0 m r h

/-- The attempt-level successor of the previous lemmas, phrased on `attemptR`. -/
theorem attemptR_ok_raw (b : Bool) (p : Provider) (env : ProvEnv) (r : Result)
    (h : attemptR b p env = Except.ok r) : ∃ body, r.raw_response = some body :=
  tryProvider_ok_raw b p env [] r h

theorem attemptR_error_of_allfail (b : Bool) (p : Provider) (env : ProvEnv)
    (hfail : ∀ j, outcomeSuccess (env.oracle j).1 = false) :
    ∃ e, attemptR b p env = Except.error e :=
  tryProvider_error_of_allfail b p env [] hfail

/-! ## Promise.any race lemmas -/

theorem foldl_pany_none_iff (l : List (Nat × Except String Result)) :
    ∀ best, l.foldl panyStep best = none ↔
      best = none ∧ ∀ x ∈ l, ∃ e, x.2 = Except.error e := by
  induction l with
  | nil => intro best; simp
  | cons x xs ih =>
    intro best
    rcases x with ⟨t, res⟩
    cases res with
    | ok r =>
      simp only [List.foldl_cons]
      rw [ih]
      constructor
      · rintro ⟨hstep, -⟩
        refine absurd hstep ?_
        rcases best with _ | ⟨tb, rb⟩
        · simp [panyStep]
        · by_cases hlt : t < tb <;> simp [panyStep, hlt]
      · rintro ⟨hb, hall⟩
        obtain ⟨e, he⟩ := hall (t, .ok r) (by simp)
        simp at he
    | error e =>
      simp only [List.foldl_cons]
      have hstep : panyStep best (t, .error e) = best := rfl
      rw [hstep, ih]
      constructor
      · rintro ⟨hb, hall⟩
        refine ⟨hb, ?_⟩
        intro x hx
        rcases List.mem_cons.mp hx with h | h
        · subst h; exact ⟨e, rfl⟩
        · exact hall x h
      · rintro ⟨hb, hall⟩
        exact ⟨hb, fun x hx => hall x (List.mem_cons_of_mem _ hx)⟩

theorem promiseAny_none_iff (l : List (Nat × Except String Result)) :
    promiseAny l = none ↔ ∀ x ∈ l, ∃ e, x.2 = Except.error e := by
  rw [promiseAny, foldl_pany_none_iff]
  simp

theorem foldl_pany_some_spec (l : List (Nat × Except String Result)) :
    ∀ best t r, l.foldl panyStep best = some (t, r) →
      (best = some (t, r) ∨ (t, Except.ok r) ∈ l) ∧
        (∀ t' r', (t', Except.ok r') ∈ l → t ≤ t') ∧
        (∀ tb rb, best = some (tb, rb) → t ≤ tb) := by
  induction l with
  | nil =>
    intro best t r h
    simp only [List.foldl_nil] at h
    refine ⟨Or.inl h, by simp, ?_⟩
    intro tb rb hb
    rw [h] at hb
    have : t = tb := by simpa using congrArg (fun o => (Option.getD o (0, r)).1) hb
    omega
  | cons x xs ih =>
    intro best t r h
    simp only [List.foldl_cons] at h
    obtain ⟨hmem, hmin, hbb⟩ := ih (panyStep best x) t r h
    rcases x with ⟨tx, resx⟩
    cases resx with
    | error e =>
      have hstep : panyStep best (tx, .error e) = best := rfl
      rw [hstep] at hmem hbb
      refine ⟨?_, ?_, hbb⟩
      · rcases hmem with h1 | h1
        · exact Or.inl h1
        · exact Or.inr (List.mem_cons_of_mem _ h1)
      · intro t' r' hx
        rcases List.mem_cons.mp hx with h1 | h1
        · simp at h1
        · exact hmin t' r' h1
    | ok rx =>
      have hle : ∀ tb rb, panyStep best (tx, Except.ok rx) = some (tb, rb) → t ≤ tb := hbb
      have hstep_le_tx : t ≤ tx := by
        rcases best with _ | ⟨tb0, rb0⟩
        · exact hle tx rx rfl
        · by_cases hlt : tx < tb0
          · have := hle tx rx (by simp [panyStep, hlt])
            omega
          · have := hle tb0 rb0 (by simp [panyStep, hlt])
            omega
      refine ⟨?_, ?_, ?_⟩
      · rcases best with _ | ⟨tb0, rb0⟩
        · rcases hmem with h1 | h1
          · have hh : tx = t ∧ rx = r := by
              constructor
              · simpa using congrArg (fun o => (Option.getD o (0, r)).1) h1
              · simpa using congrArg (fun o => (Option.getD o (0, r)).2) h1
            exact Or.inr (by rw [← hh.1, ← hh.2]; exact List.mem_cons_self _ _)
          · exact Or.inr (List.mem_cons_of_mem _ h1)
        · by_cases hlt : tx < tb0
          · rcases hmem with h1 | h1
            · rw [show panyStep (some (tb0, rb0)) (tx, Except.ok rx) = some (tx, rx) from
                by simp [panyStep, hlt]] at h1
              have hh : tx = t ∧ rx = r := by
                constructor
                · simpa using congrArg (fun o => (Option.getD o (0, r)).1) h1
                · simpa using congrArg (fun o => (Option.getD o (0, r)).2) h1
              exact Or.inr (by rw [← hh.1, ← hh.2]; exact List.mem_cons_self _ _)
            · exact Or.inr (List.mem_cons_of_mem _ h1)
          · rcases hmem with h1 | h1
            · rw [show panyStep (some (tb0, rb0)) (tx, Except.ok rx) = some (tb0, rb0) from
                by simp [panyStep, hlt]] at h1
              exact Or.inl h1
            · exact Or.inr (List.mem_cons_of_mem _ h1)
      · intro t' r' hx
        rcases List.mem_cons.mp hx with h1 | h1
        · have : t' = tx := by simpa using congrArg Prod.fst h1
          omega
        · exact hmin t' r' h1
      · intro tb rb hb
        subst hb
        by_cases hlt : tx < tb
        · have := hle tx rx (by simp [panyStep, hlt])
          omega
        · have := hle tb rb (by simp [panyStep, hlt])
          omega

theorem promiseAny_some_spec (l : List (Nat × Except String Result)) (t : Nat)
    (r : Result) (h : promiseAny l = some (t, r)) :
    (t, Except.ok r) ∈ l ∧ ∀ t' r', (t', Except.ok r') ∈ l → t ≤ t' := by
  obtain ⟨hmem, hmin, -⟩ := foldl_pany_some_spec l none t r h
  rcases hmem with h1 | h1
  · simp at h1
  · exact ⟨h1, hmin⟩

theorem promiseAny_ne_none_of_mem (l : List (Nat × Except String Result))
    (t : Nat) (r : Result) (h : (t, Except.ok r) ∈ l) : promiseAny l ≠ none := by
  intro hn
  rw [promiseAny_none_iff] at hn
  obtain ⟨e, he⟩ := hn _ h
  simp at he

/-! ## Sequential loop characterization -/

/-- Full case analysis of the sequential provider loop: either some provider
is the first whose attempt succeeds — the loop returns its Result and writes
exactly that Result to the cache when caching is enabled — or every selected
provider's attempt fails and the loop returns the placeholder Result with the
cache and the consecutive counters untouched. -/
theorem runSeqLoop_cases (b : Bool) (cc : CacheCfg) (th : Nat) (input : String)
    (now : Nat) (qr : Fin QUIRKY_MESSAGES.length) (env : Nat → ProvEnv) :
    ∀ (provs : List Provider) (i0 : Nat) (m : Metrics) (c : Cache) (k : Counts),
      (∃ n, ∃ hn : n < provs.length, ∃ r,
        (∀ j, ∀ hj : j < provs.length, j < n →
          ∃ e, attemptR b (provs.get ⟨j, hj⟩) (env (i0 + j)) = Except.error e) ∧
        attemptR b (provs.get ⟨n, hn⟩) (env (i0 + n)) = Except.ok r ∧
        (runSeqLoop b cc th input now qr env provs i0 m c k).1 = r ∧
        (runSeqLoop b cc th input now qr env provs i0 m c k).2.2.1 =
          (if cc.enabled then setCache c (makeKey input "global" "") r cc.ttl now
           else c)) ∨
      ((∀ n, ∀ hn : n < provs.length,
          ∃ e, attemptR b (provs.get ⟨n, hn⟩) (env (i0 + n)) = Except.error e) ∧
        (runSeqLoop b cc th input now qr env provs i0 m c k).1 = quirkyResult qr ∧
        (runSeqLoop b cc th input now qr env provs i0 m c k).2.2.1 = c ∧
        (runSeqLoop b cc th input now qr env provs i0 m c k).2.2.2 = k) := by
  intro provs
  induction provs with
  | nil =>
    intro i0 m c k
    right
    refine ⟨?_, rfl, rfl, rfl⟩
    intro n hn
    exact absurd hn (Nat.not_lt_zero n)
  | cons p rest ih =>
    intro i0 m c k
    rcases htp : tryProvider b p (env i0) m with ⟨res, m1⟩
    have hres : res = attemptR b p (env i0) := by
      have h := tryProvider_fst_eq_attemptR b p (env i0) m
      rw [htp] at h
      exact h
    have hred : runSeqLoop b cc th input now qr env (p :: rest) i0 m c k =
        (match tryProvider b p (env i0) m with
         | (.ok r, m') =>
           (r, m',
            if cc.enabled then setCache c (makeKey input "global" "") r cc.ttl now else c,
            bumpConsecutive th p.name k)
         | (.error _, m') =>
           runSeqLoop b cc th input now qr env rest (i0 + 1) m' c k) := rfl
    cases hres2 : res with
    | ok r =>
      left
      refine ⟨0, by simp, r, ?_, ?_, ?_, ?_⟩
      · intro j hj hj0
        exact absurd hj0 (Nat.not_lt_zero j)
      · show attemptR b p (env (i0 + 0)) = Except.ok r
        rw [Nat.add_zero, ← hres, hres2]
      · rw [hred, htp, hres2]
      · rw [hred, htp, hres2]
    | error e =>
      have hredE : runSeqLoop b cc th input now qr env (p :: rest) i0 m c k =
          runSeqLoop b cc th input now qr env rest (i0 + 1) m1 c k := by
        rw [hred, htp, hres2]
      have hhead : ∃ e, attemptR b p (env (i0 + 0)) = Except.error e := by
        rw [Nat.add_zero, ← hres, hres2]
        exact ⟨e, rfl⟩
      rcases ih (i0 + 1) m1 c k with ⟨n, hn, r, hprev, hok, h1, h2⟩ | ⟨hall, hq1, hq2, hq3⟩
      · left
        refine ⟨n + 1, by simpa using Nat.succ_lt_succ hn, r, ?_, ?_, ?_, ?_⟩
        · intro j hj hjn
          cases j with
          | zero => simpa using hhead
          | succ j' =>
            have hj' : j' < rest.length := by simpa using Nat.lt_of_succ_lt_succ hj
            have hjn' : j' < n := Nat.lt_of_succ_lt_succ hjn
            have hidx : i0 + 1 + j' = i0 + (j' + 1) := by omega
            have hh := hprev j' hj' hjn'
            rw [hidx] at hh
            simpa using hh
        · have hidx : i0 + 1 + n = i0 + (n + 1) := by omega
          rw [hidx] at hok
          simpa using hok
        · rw [hredE]; exact h1
        · rw [hredE]; exact h2
      · right
        refine ⟨?_, ?_, ?_, ?_⟩
        · intro n hn
          cases n with
          | zero => simpa using hhead
          | succ n' =>
            have hn' : n' < rest.length := by simpa using Nat.lt_of_succ_lt_succ hn
            have hidx : i0 + 1 + n' = i0 + (n' + 1) := by omega
            have hh := hall n' hn'
            rw [hidx] at hh
            simpa using hh
        · rw [hredE]; exact hq1
        · rw [hredE]; exact hq2
        · rw [hredE]; exact hq3

/-! ## C1 -/

/-- Claim C1: when every provider attempt fails at runtime (transport
rejection, non-success transport status, or unextractable body — i.e. no
oracle outcome is a success), the orchestration does not throw: in both
sequential and concurrent mode it returns a Result whose `raw_response` is
null and whose `text` is one of the five fixed placeholder messages. -/
theorem say_total_failure_returns_placeholder (cfg : Config)
    (intent : Option IntentSpec) (input : String) (env : Nat → ProvEnv)
    (times : Nat → Nat) (now : Nat) (qr : Fin QUIRKY_MESSAGES.length)
    (m : Metrics) (c : Cache) (k : Counts)
    (hfail : ∀ i j, outcomeSuccess ((env i).oracle j).1 = false) :
    QUIRKY_MESSAGES.length = 5 ∧
      ((runSequential cfg intent input env now qr m c k).1.raw_response = none ∧
        (runSequential cfg intent input env now qr m c k).1.text ∈ QUIRKY_MESSAGES) ∧
      ((runConcurrent cfg intent input env times now qr m c).1.raw_response = none ∧
        (runConcurrent cfg intent input env times now qr m c).1.text ∈ QUIRKY_MESSAGES) := by
  have hquirky : (quirkyResult qr).raw_response = none ∧
      (quirkyResult qr).text ∈ QUIRKY_MESSAGES :=
    ⟨rfl, List.get_mem _ qr.1 qr.2⟩
  refine ⟨rfl, ?_, ?_⟩
  · rcases runSeqLoop_cases cfg.metrics cfg.cache cfg.consecutive_success input now qr env
      (getFilteredProviders cfg.providers intent) 0 m c k with
      ⟨n, hn, r, -, hok, -, -⟩ | ⟨-, h1, -, -⟩
    · obtain ⟨e, he⟩ := attemptR_error_of_allfail cfg.metrics _ (env (0 + n)) (hfail (0 + n))
      rw [hok] at he
      simp at he
    · have : (runSequential cfg intent input env now qr m c k).1 = quirkyResult qr := h1
      rw [this]
      exact hquirky
  · have hnone : promiseAny (concurrentTasks cfg.metrics
        (getFilteredProviders cfg.providers intent) env times m) = none := by
      rw [promiseAny_none_iff]
      intro x hx
      obtain ⟨ip, -, hfx⟩ := List.mem_map.mp hx
      obtain ⟨e, he⟩ := tryProvider_error_of_allfail cfg.metrics ip.2 (env ip.1) m (hfail ip.1)
      exact ⟨e, by rw [← hfx]; exact he⟩
    have : runConcurrent cfg intent input env times now qr m c = (quirkyResult qr, c) := by
      simp only [runConcurrent, hnone]
    rw [this]
    exact hquirky

/-- Witness for `say_total_failure_returns_placeholder` with one provider and
an always-rejecting transport. -/
theorem say_total_failure_returns_placeholder_witness :
    QUIRKY_MESSAGES.length = 5 ∧
      ((runSequential cfgW none "hi" envFailW 0 ⟨3, by decide⟩ [] [] []).1.raw_response = none ∧
        (runSequential cfgW none "hi" envFailW 0 ⟨3, by decide⟩ [] [] []).1.text ∈ QUIRKY_MESSAGES) ∧
      ((runConcurrent cfgW none "hi" envFailW (fun _ => 0) 0 ⟨3, by decide⟩ [] []).1.raw_response = none ∧
        (runConcurrent cfgW none "hi" envFailW (fun _ => 0) 0 ⟨3, by decide⟩ [] []).1.text ∈ QUIRKY_MESSAGES) :=
  say_total_failure_returns_placeholder cfgW none "hi" envFailW (fun _ => 0) 0
    ⟨3, by decide⟩ [] [] [] (fun _ _ => rfl)

/-! ## C3 -/

/-- Claim C3: in concurrent mode one provider-attempt task is launched per
selected provider; whenever at least one task succeeds the orchestration's
Result is that of the earliest-succeeding task (even if other tasks fail
earlier or are still pending), and the placeholder Result is returned exactly
when every task fails — never while a task has succeeded. -/
theorem runConcurrent_first_success_wins (cfg : Config) (intent : Option IntentSpec)
    (input : String) (env : Nat → ProvEnv) (times : Nat → Nat) (now : Nat)
    (qr : Fin QUIRKY_MESSAGES.length) (m : Metrics) (c : Cache) :
    (concurrentTasks cfg.metrics (getFilteredProviders cfg.providers intent) env times m).length
        = (getFilteredProviders cfg.providers intent).length ∧
      ((∃ t r, (t, Except.ok r) ∈
          concurrentTasks cfg.metrics (getFilteredProviders cfg.providers intent) env times m) →
        ∃ t r,
          promiseAny (concurrentTasks cfg.metrics
            (getFilteredProviders cfg.providers intent) env times m) = some (t, r) ∧
          (t, Except.ok r) ∈
            concurrentTasks cfg.metrics (getFilteredProviders cfg.providers intent) env times m ∧
          (∀ t' r', (t', Except.ok r') ∈
              concurrentTasks cfg.metrics (getFilteredProviders cfg.providers intent) env times m →
            t ≤ t') ∧
          (runConcurrent cfg intent input env times now qr m c).1 = r) ∧
      ((∀ x ∈ concurrentTasks cfg.metrics
          (getFilteredProviders cfg.providers intent) env times m,
          ∃ e, x.2 = Except.error e) →
        (runConcurrent cfg intent input env times now qr m c).1 = quirkyResult qr) := by
  refine ⟨?_, ?_, ?_⟩
  · simp [concurrentTasks, List.enum_length]
  · rintro ⟨t0, r0, hmem⟩
    rcases hp : promiseAny (concurrentTasks cfg.metrics
        (getFilteredProviders cfg.providers intent) env times m) with _ | ⟨t, r⟩
    · exact absurd hp (promiseAny_ne_none_of_mem _ t0 r0 hmem)
    · obtain ⟨hm, hmin⟩ := promiseAny_some_spec _ t r hp
      refine ⟨t, r, rfl, hm, hmin, ?_⟩
      simp only [runConcurrent, hp]
  · intro hall
    have hnone : promiseAny (concurrentTasks cfg.metrics
        (getFilteredProviders cfg.providers intent) env times m) = none :=
      (promiseAny_none_iff _).mpr hall
    simp only [runConcurrent, hnone]

/-- Witness for `runConcurrent_first_success_wins`: a fast-failing provider
and a slow-succeeding one; the orchestration returns the slow success, not a
placeholder. -/
theorem runConcurrent_first_success_wins_witness :
    ∃ t r,
      promiseAny (concurrentTasks cfg2W.metrics
        (getFilteredProviders cfg2W.providers none) envMixedW timesW []) = some (t, r) ∧
      (t, Except.ok r) ∈
        concurrentTasks cfg2W.metrics (getFilteredProviders cfg2W.providers none) envMixedW timesW [] ∧
      (∀ t' r', (t', Except.ok r') ∈
          concurrentTasks cfg2W.metrics (getFilteredProviders cfg2W.providers none) envMixedW timesW [] →
        t ≤ t') ∧
      (runConcurrent cfg2W none "hi" envMixedW timesW 0 ⟨0, by decide⟩ [] []).1 = r :=
  (runConcurrent_first_success_wins cfg2W none "hi" envMixedW timesW 0
      ⟨0, by decide⟩ [] []).2.1 ⟨5, sampleResult, by decide⟩

/-! ## C9 -/

/-- Claim C9: with caching enabled, a say orchestration writes to the cache
exactly when some provider attempt succeeded, and the written value is the
returned (success) Result, which always carries a non-null `raw_response`;
the placeholder Result of a totally failed orchestration is never written and
leaves the cache unchanged — in both sequential and concurrent mode. -/
theorem cache_written_iff_success (cfg : Config) (intent : Option IntentSpec)
    (input : String) (env : Nat → ProvEnv) (times : Nat → Nat) (now : Nat)
    (qr : Fin QUIRKY_MESSAGES.length) (m : Metrics) (c : Cache) (k : Counts) :
    ((∀ n, ∀ hn : n < (getFilteredProviders cfg.providers intent).length,
        ∃ e, attemptR cfg.metrics ((getFilteredProviders cfg.providers intent).get ⟨n, hn⟩)
            (env n) = Except.error e) →
      (runSequential cfg intent input env now qr m c k).2.2.1 = c ∧
        (runSequential cfg intent input env now qr m c k).1 = quirkyResult qr) ∧
    (cfg.cache.enabled = true →
      ((∃ n, ∃ hn : n < (getFilteredProviders cfg.providers intent).length, ∃ r,
          attemptR cfg.metrics ((getFilteredProviders cfg.providers intent).get ⟨n, hn⟩)
            (env n) = Except.ok r) ↔
        (runSequential cfg intent input env now qr m c k).2.2.1 =
            setCache c (makeKey input "global" "")
              (runSequential cfg intent input env now qr m c k).1 cfg.cache.ttl now ∧
          ∃ body, (runSequential cfg intent input env now qr m c k).1.raw_response
            = some body)) ∧
    ((∀ x ∈ concurrentTasks cfg.metrics (getFilteredProviders cfg.providers intent) env times m,
        ∃ e, x.2 = Except.error e) →
      (runConcurrent cfg intent input env times now qr m c).2 = c ∧
        (runConcurrent cfg intent input env times now qr m c).1 = quirkyResult qr) ∧
    (cfg.cache.enabled = true →
      ((∃ t r, (t, Except.ok r) ∈
          concurrentTasks cfg.metrics (getFilteredProviders cfg.providers intent) env times m) ↔
        (runConcurrent cfg intent input env times now qr m c).2 =
            setCache c (makeKey input "global" "")
              (runConcurrent cfg intent input env times now qr m c).1 cfg.cache.ttl now ∧
          ∃ body, (runConcurrent cfg intent input env times now qr m c).1.raw_response
            = some body)) := by
  refine ⟨?_, ?_, ?_, ?_⟩
  · intro hall
    rcases runSeqLoop_cases cfg.metrics cfg.cache cfg.consecutive_success input now qr env
        (getFilteredProviders cfg.providers intent) 0 m c k with
      ⟨n, hn, r, -, hok, -, -⟩ | ⟨-, h1, h2, -⟩
    · obtain ⟨e, he⟩ := hall n hn
      rw [Nat.zero_add] at hok
      rw [hok] at he
      simp at he
    · exact ⟨h2, h1⟩
  · intro hen
    constructor
    · rintro ⟨n, hn, r, hok⟩
      rcases runSeqLoop_cases cfg.metrics cfg.cache cfg.consecutive_success input now qr env
          (getFilteredProviders cfg.providers intent) 0 m c k with
        ⟨n', hn', r', -, hok', h1, h2⟩ | ⟨hall, -, -, -⟩
      · have hseq : runSequential cfg intent input env now qr m c k
            = runSeqLoop cfg.metrics cfg.cache cfg.consecutive_success input now qr env
                (getFilteredProviders cfg.providers intent) 0 m c k := rfl
        refine ⟨?_, ?_⟩
        · rw [hseq, h2, h1, hen]
          simp
        · obtain ⟨body, hb⟩ := attemptR_ok_raw cfg.metrics _ _ _ hok'
          refine ⟨body, ?_⟩
          rw [hseq, h1]
          exact hb
      · obtain ⟨e, he⟩ := hall n hn
        rw [Nat.zero_add] at he
        rw [hok] at he
        simp at he
    · rintro ⟨-, body, hb⟩
      rcases runSeqLoop_cases cfg.metrics cfg.cache cfg.consecutive_success input now qr env
          (getFilteredProviders cfg.providers intent) 0 m c k with
        ⟨n', hn', r', -, hok', -, -⟩ | ⟨-, h1, -, -⟩
      · rw [Nat.zero_add] at hok'
        exact ⟨n', hn', r', hok'⟩
      · rw [show (runSequential cfg intent input env now qr m c k).1 =
            quirkyResult qr from h1] at hb
        simp [quirkyResult] at hb
  · intro hall
    have hnone := (promiseAny_none_iff _).mpr hall
    constructor <;> simp only [runConcurrent, hnone]
  · intro hen
    constructor
    · rintro ⟨t0, r0, hmem⟩
      rcases hp : promiseAny (concurrentTasks cfg.metrics
          (getFilteredProviders cfg.providers intent) env times m) with _ | ⟨t, r⟩
      · exact absurd hp (promiseAny_ne_none_of_mem _ t0 r0 hmem)
      · obtain ⟨hm, -⟩ := promiseAny_some_spec _ t r hp
        obtain ⟨ip, -, hfx⟩ := List.mem_map.mp hm
        have hok : (tryProvider cfg.metrics ip.2 (env ip.1) m).1 = Except.ok r := by
          have h := congrArg Prod.snd hfx
          simpa using h
        obtain ⟨body, hb⟩ := tryProvider_ok_raw cfg.metrics ip.2 (env ip.1) m r hok
        constructor
        · simp only [runConcurrent, hp, hen, if_true]
        · exact ⟨body, by simp only [runConcurrent, hp]; exact hb⟩
    · rintro ⟨-, body, hb⟩
      rcases hp : promiseAny (concurrentTasks cfg.metrics
          (getFilteredProviders cfg.providers intent) env times m) with _ | ⟨t, r⟩
      · simp only [runConcurrent, hp, quirkyResult] at hb
        simp at hb
      · obtain ⟨hm, -⟩ := promiseAny_some_spec _ t r hp
        exact ⟨t, r, hm⟩

/-- Witness for `cache_written_iff_success`: a totally failing sequential run
leaves the cache unchanged and yields the placeholder; a succeeding one
writes exactly its returned Result. -/
theorem cache_written_iff_success_witness :
    ((runSequential cfgW none "hi" envFailW 7 ⟨2, by decide⟩ [] [] []).2.2.1 = [] ∧
      (runSequential cfgW none "hi" envFailW 7 ⟨2, by decide⟩ [] [] []).1
        = quirkyResult ⟨2, by decide⟩) ∧
    ((runSequential cfgW none "hi" envSuccW 7 ⟨2, by decide⟩ [] [] []).2.2.1 =
        setCache [] (makeKey "hi" "global" "")
          (runSequential cfgW none "hi" envSuccW 7 ⟨2, by decide⟩ [] [] []).1
          cfgW.cache.ttl 7 ∧
      ∃ body, (runSequential cfgW none "hi" envSuccW 7 ⟨2, by decide⟩ [] [] []).1.raw_response
        = some body) :=
  ⟨(cache_written_iff_success cfgW none "hi" envFailW (fun _ => 0) 7 ⟨2, by decide⟩
      [] [] []).1
    (by
      intro n hn
      have hlen : (getFilteredProviders cfgW.providers none).length = 1 := by decide
      have hn0 : n = 0 := by omega
      subst hn0
      refine ⟨"No API key for A", ?_⟩
      show attemptR cfgW.metrics (baseProvider "A") (envFailW 0)
        = Except.error "No API key for A"
      decide),
   ((cache_written_iff_success cfgW none "hi" envSuccW (fun _ => 0) 7 ⟨2, by decide⟩
      [] [] []).2.1 rfl).mp ⟨0, by decide, sampleResult, by decide⟩⟩

/-! ## C10 -/

theorem osay_hit (cfg : Config) (intent : Option IntentSpec) (input : String)
    (env : Nat → ProvEnv) (times : Nat → Nat) (now : Nat)
    (qr : Fin QUIRKY_MESSAGES.length) (m : Metrics) (c : Cache) (k : Counts)
    (e : CacheEntry) (he : cfg.cache.enabled = true)
    (hm : mapGet c (makeKey input "global" "") = some e)
    (hexp : ¬ (e.expires < now)) :
    osay cfg intent input env times now qr m c k = (e.value, m, c, k) := by
  have hg : getCache c (makeKey input "global" "") now = (some e.value, c) := by
    simp [getCache, hm, hexp]
  simp only [osay, he, if_true, hg]

theorem osay_empty_success (cfg : Config) (intent : Option IntentSpec)
    (input : String) (env : Nat → ProvEnv) (times : Nat → Nat) (now : Nat)
    (qr : Fin QUIRKY_MESSAGES.length) (m : Metrics) (k : Counts)
    (he : cfg.cache.enabled = true)
    (hraw : (osay cfg intent input env times now qr m [] k).1.raw_response ≠ none) :
    (osay cfg intent input env times now qr m [] k).2.2.1
      = setCache [] (makeKey input "global" "")
          (osay cfg intent input env times now qr m [] k).1 cfg.cache.ttl now := by
  have hmiss : getCache [] (makeKey input "global" "") now = (none, []) := rfl
  have hred : osay cfg intent input env times now qr m [] k =
      (match cfg.mode with
       | .concurrent =>
         ((runConcurrent cfg intent input env times now qr m []).1, m,
          (runConcurrent cfg intent input env times now qr m []).2, k)
       | .synchronous => runSequential cfg intent input env now qr m [] k) := by
    simp only [osay, he, if_true, hmiss]
  cases hmode : cfg.mode with
  | synchronous =>
    have hosay : osay cfg intent input env times now qr m [] k
        = runSequential cfg intent input env now qr m [] k := by
      rw [hred, hmode]
    rw [hosay] at hraw ⊢
    have hseq : runSequential cfg intent input env now qr m [] k
        = runSeqLoop cfg.metrics cfg.cache cfg.consecutive_success input now qr env
            (getFilteredProviders cfg.providers intent) 0 m [] k := rfl
    rcases runSeqLoop_cases cfg.metrics cfg.cache cfg.consecutive_success input now qr env
        (getFilteredProviders cfg.providers intent) 0 m [] k with
      ⟨n, hn, r, -, -, h1, h2⟩ | ⟨-, h1, -, -⟩
    · rw [hseq, h2, h1, he]
      simp
    · rw [hseq, h1] at hraw
      exact absurd rfl hraw
  | concurrent =>
    have hosay : osay cfg intent input env times now qr m [] k
        = ((runConcurrent cfg intent input env times now qr m []).1, m,
           (runConcurrent cfg intent input env times now qr m []).2, k) := by
      rw [hred, hmode]
    rw [hosay] at hraw ⊢
    simp only at hraw ⊢
    rcases hp : promiseAny (concurrentTasks cfg.metrics
        (getFilteredProviders cfg.providers intent) env times m) with _ | ⟨t, r⟩
    · simp only [runConcurrent, hp] at hraw
      exact absurd rfl hraw
    · simp only [runConcurrent, hp, he, if_true]

/-- Claim C10: the orchestrator's cache key is exactly `"global::" + prompt`
(no provider, model or intent in the fingerprint); consequently, a second
`say` call with the same prompt within the first call's TTL window — under
any second configuration with caching enabled and any requested intent — is
served the first call's Result from the cache. -/
theorem cache_key_global_prompt :
    (∀ input : String, makeKey input "global" "" = "global::" ++ input) ∧
    (∀ (cfg1 cfg2 : Config) (int1 int2 : Option IntentSpec) (input : String)
      (env1 env2 : Nat → ProvEnv) (times1 times2 : Nat → Nat) (t0 t1 : Nat)
      (qr1 qr2 : Fin QUIRKY_MESSAGES.length) (m1 m2 : Metrics) (k1 k2 : Counts),
      cfg1.cache.enabled = true → cfg2.cache.enabled = true →
      (osay cfg1 int1 input env1 times1 t0 qr1 m1 [] k1).1.raw_response ≠ none →
      t1 ≤ t0 + cfg1.cache.ttl →
      (osay cfg2 int2 input env2 times2 t1 qr2 m2
          ((osay cfg1 int1 input env1 times1 t0 qr1 m1 [] k1).2.2.1) k2).1
        = (osay cfg1 int1 input env1 times1 t0 qr1 m1 [] k1).1) := by
  constructor
  · intro input
    rfl
  · intro cfg1 cfg2 int1 int2 input env1 env2 times1 times2 t0 t1 qr1 qr2 m1 m2 k1 k2
    intro he1 he2 hraw hle
    have hc1 := osay_empty_success cfg1 int1 input env1 times1 t0 qr1 m1 k1 he1 hraw
    have hentry : mapGet ((osay cfg1 int1 input env1 times1 t0 qr1 m1 [] k1).2.2.1)
        (makeKey input "global" "")
        = some ⟨t0 + cfg1.cache.ttl, (osay cfg1 int1 input env1 times1 t0 qr1 m1 [] k1).1⟩ := by
      rw [hc1]
      simp [setCache, mapSet, mapGet]
    have hexp : ¬ ((⟨t0 + cfg1.cache.ttl,
        (osay cfg1 int1 input env1 times1 t0 qr1 m1 [] k1).1⟩ : CacheEntry).expires < t1) := by
      simp only
      omega
    rw [osay_hit cfg2 int2 input env2 times2 t1 qr2 m2 _ k2 _ he2 hentry hexp]

/-- Witness for `cache_key_global_prompt`: a successful first call under one
configuration, then a second call with a different configuration and an
always-failing environment is served the first Result from the cache. -/
theorem cache_key_global_prompt_witness :
    makeKey "hi" "global" "" = "global::" ++ "hi" ∧
      (osay cfg2W none "hi" envFailW (fun _ => 0) 500 ⟨1, by decide⟩ []
          ((osay cfgW none "hi" envSuccW (fun _ => 0) 0 ⟨0, by decide⟩ [] [] []).2.2.1)
          []).1
        = (osay cfgW none "hi" envSuccW (fun _ => 0) 0 ⟨0, by decide⟩ [] [] []).1 :=
  ⟨cache_key_global_prompt.1 "hi",
   cache_key_global_prompt.2 cfgW cfg2W none none "hi" envSuccW envFailW
     (fun _ => 0) (fun _ => 0) 0 500 ⟨0, by decide⟩ ⟨1, by decide⟩ [] [] [] []
     rfl rfl (by decide) (by decide)⟩

/-! ## C2 -/

theorem scoreLe_trans (a b c : Scored) (hab : scoreLe a b = true)
    (hbc : scoreLe b c = true) : scoreLe a c = true := by
  simp only [scoreLe, Bool.or_eq_true, Bool.and_eq_true, decide_eq_true_eq] at *
  omega

theorem scoreLe_total (a b : Scored) : (scoreLe a b || scoreLe b a) = true := by
  simp only [scoreLe, Bool.or_eq_true, Bool.and_eq_true, decide_eq_true_eq]
  omega

theorem scoredOf_idx_nodup (providers : List Provider) (ia : List String) :
    ((scoredOf providers ia).map (fun s => s.idx)).Nodup := by
  have h : (scoredOf providers ia).map (fun s => s.idx) = providers.enum.map Prod.fst := by
    simp only [scoredOf, List.map_map]
    rfl
  rw [h]
  exact List.nodup_enum_map_fst providers

/-- Claim C2: provider selection returns the list unchanged when no intent is
requested; otherwise it is characterized by a list `l` of scored providers
that is a permutation of the positively-scored providers (zero scores are
dropped), is ordered by match count descending with ties broken by original
configured position, and whose provider projection is the result — falling
back to the full provider list when `l` is empty. -/
theorem getFilteredProviders_selection_spec (providers : List Provider) :
    getFilteredProviders providers none = providers ∧
    ∀ isp : IntentSpec,
      ∃ l : List Scored,
        l.Perm (posScored providers (intentValues (some isp))) ∧
        l.Pairwise scoredBefore ∧
        getFilteredProviders providers (some isp)
          = (if l.isEmpty then providers else l.map (fun s => s.provider)) := by
  constructor
  · rfl
  · intro isp
    by_cases hf : intentFalsy (some isp) = true
    · have hiv : intentValues (some isp) = [] := by
        cases isp with
        | one s =>
          simp only [intentFalsy, decide_eq_true_eq] at hf
          simp [intentValues, hf]
        | many l => simp [intentFalsy] at hf
      have hpos : posScored providers (intentValues (some isp)) = [] := by
        rw [hiv]
        apply List.filter_eq_nil_iff.mpr
        intro a ha
        obtain ⟨ip, -, hfa⟩ := List.mem_map.mp ha
        rw [← hfa]
        simp [matchCountOf]
      refine ⟨[], ?_, List.Pairwise.nil, ?_⟩
      · rw [hpos]
      · simp [getFilteredProviders, hf]
  
    · have hf' : intentFalsy (some isp) = false := by
        simpa using hf
      refine ⟨((scoredOf providers (intentValues (some isp))).mergeSort scoreLe).filter
          (fun s => 0 < s.matchCount), ?_, ?_, ?_⟩
      · exact (List.mergeSort_perm (scoredOf providers (intentValues (some isp)))
          scoreLe).filter _
      · have hsorted := List.sorted_mergeSort scoreLe_trans scoreLe_total
          (scoredOf providers (intentValues (some isp)))
        have hnodup : ((((scoredOf providers (intentValues (some isp))).mergeSort
            scoreLe)).map (fun s => s.idx)).Nodup := by
          have hperm := ((List.mergeSort_perm (scoredOf providers (intentValues (some isp)))
            scoreLe).symm).map (fun s => s.idx)
          exact hperm.nodup (scoredOf_idx_nodup providers (intentValues (some isp)))
        have hne := List.pairwise_map.mp hnodup
        have hbefore : (((scoredOf providers (intentValues (some isp))).mergeSort
            scoreLe)).Pairwise scoredBefore := by
          refine (hsorted.and hne).imp ?_
          intro a b hab
          obtain ⟨h1, h2⟩ := hab
          simp only [scoreLe, Bool.or_eq_true, Bool.and_eq_true, decide_eq_true_eq] at h1
          unfold scoredBefore
          omega
        exact hbefore.filter _
      · simp only [getFilteredProviders, hf', Bool.false_eq_true, if_false]
        rcases hl : ((scoredOf providers (intentValues (some isp))).mergeSort scoreLe).filter
            (fun s => 0 < s.matchCount) with _ | ⟨hd, tl⟩
        · simp [intentValues, hl]
        · simp [intentValues, hl]
